import Mathlib

/-!
Shallow embedding of `src/calculon/src/main.rs` (the "calculon" TCP calculator
server): a Connection Acceptor (`main`), a Command Session Handler
(`process_request`), and a Shared State Cell (`Arc<Mutex<GlobalState>>` with
operations `add`, `subtract`, `power`, `show`).

Modelling decisions:
* The numeric domain of the shared cell (`f64` in the source) is embedded as an
  arbitrary field `K`; theorems that need power semantics instantiate `K := ℝ`
  with `Real.rpow` for `f64::powf`, and executable witnesses instantiate
  `K := ℚ`.  Floating-point rounding, overflow to infinity, NaN and signed
  zero are outside this real-valued model.
* A session's input is the finite list of lines its line reader yields before
  end-of-stream; the `?` operator on a failed `parse::<f64>()` is modelled by a
  `fatal` outcome that stops the session loop.
* The mutex serialising `add`/`subtract`/`power`/`show` is modelled by making
  each of those operations a single atomic step of a schedule.
-/

namespace Calculon

/-! ### Tokenization: Rust's `str::split_whitespace` -/

/-- Accumulate the current word (in reverse) while scanning the characters,
emitting maximal runs of non-whitespace characters, exactly as
`split_whitespace` does (empty substrings are never produced). -/
def wordsAux : List Char → List Char → List (List Char)
  | [], cur => if cur.isEmpty then [] else [cur.reverse]
  | c :: cs, cur =>
    if c.isWhitespace then
      if cur.isEmpty then wordsAux cs [] else cur.reverse :: wordsAux cs []
    else wordsAux cs (c :: cur)

/-- Model of Rust `line.split_whitespace().collect::<Vec<_>>()`: the
whitespace-separated words of the line, with no empty words. -/
def splitWhitespace (s : String) : List String :=
  (wordsAux s.data []).map List.asString

/-! ### Parsing: Rust's `str::parse::<f64>()`

The grammar accepted by `f64::from_str` for finite numbers is
`Sign? (Digit+ ('.' Digit*)? | '.' Digit+) Exp?` with
`Exp ::= ('e'|'E') Sign? Digit+`.  The special spellings `inf`, `infinity`
and `nan` denote non-finite values that have no counterpart in the
real-valued model and are not part of this embedding. -/

variable {K : Type} [Field K]

/-- Numeric value of a list of decimal digit characters, most significant
first. -/
def digitsToNat (ds : List Char) : ℕ :=
  ds.foldl (fun a c => 10 * a + (c.toNat - 48)) 0

/-- Parse the mantissa `Digit+ ('.' Digit*)? | '.' Digit+`, returning the
digit string's value, the number of fractional digits, and the remaining
characters. -/
def parseMantissa (cs : List Char) : Option (ℕ × ℕ × List Char) :=
  let ip := cs.takeWhile Char.isDigit
  let r1 := cs.dropWhile Char.isDigit
  match r1 with
  | '.' :: r2 =>
    let fp := r2.takeWhile Char.isDigit
    let r3 := r2.dropWhile Char.isDigit
    if ip.isEmpty && fp.isEmpty then none
    else some (digitsToNat (ip ++ fp), fp.length, r3)
  | _ => if ip.isEmpty then none else some (digitsToNat ip, 0, r1)

/-- Parse an optional exponent suffix `('e'|'E') Sign? Digit+`; the whole
remaining input must be consumed. -/
def parseExponent (cs : List Char) : Option ℤ :=
  match cs with
  | [] => some 0
  | e :: r1 =>
    if e = 'e' || e = 'E' then
      let (esign, r2) : ℤ × List Char :=
        match r1 with
        | '-' :: r => (-1, r)
        | '+' :: r => (1, r)
        | _ => (1, r1)
      let ed := r2.takeWhile Char.isDigit
      let r3 := r2.dropWhile Char.isDigit
      if ed.isEmpty || !r3.isEmpty then none
      else some (esign * (digitsToNat ed : ℤ))
    else none

/-- Model of `words[1].parse::<f64>()` over the numeric field `K`: the value
denoted by a finite decimal literal, or `none` when the token is not in the
grammar (the behaviour the source propagates as a fatal session error). -/
def parseFloat (s : String) : Option K :=
  let (sign, cs) : K × List Char :=
    match s.data with
    | '-' :: r => (-1, r)
    | '+' :: r => (1, r)
    | _ => (1, s.data)
  match parseMantissa cs with
  | none => none
  | some (num, frac, rest) =>
    match parseExponent rest with
    | none => none
    | some e => some (sign * (num : K) / (10 : K) ^ frac * (10 : K) ^ e)

/-! ### The Shared State Cell operations

`add`, `subtract`, `power` and `show` in the source each lock the mutex,
compute the new value from the current one, store it and return it.  With the
lock modelled as atomicity of the whole step, each is a pure function from the
current value to the (new value = returned value). -/

/-- `fn add`: `value ← value + operand`, returning the new value. -/
def add (value : K) (x : K) : K := x + value

/-- `fn subtract`: `value ← value - operand`, returning the new value. -/
def subtract (value : K) (x : K) : K := x - value

/-- `fn power`: `value ← value.powf(operand)`, returning the new value; the
`f64::powf` primitive is a parameter `powf` of the model. -/
def power (powf : K → K → K) (value : K) (x : K) : K := powf x value

/-- `fn show` (named `showX` because `show` is a Lean keyword): returns the
current value without modifying it. -/
def showX (x : K) : K := x

/-! ### The Command Session Handler: `process_request` -/

/-- One response line written to the client.  Numeric formatting (`{operand}`,
`{new_value}`) is abstracted by carrying the numbers themselves; `render`
below recovers the exact text given a formatter for numbers. -/
inductive Response (K : Type) where
  | greeting : Response K
  | added (operand newValue : K) : Response K
  | subtracted (operand newValue : K) : Response K
  | powered (operand newValue : K) : Response K
  | shown (value : K) : Response K
  | unknown (token : String) : Response K
  deriving DecidableEq

/-- The exact text of a response line, given the rendering `fmt` of `f64`
values (`Display` for `f64` in the source). -/
def Response.render (fmt : K → String) : Response K → String
  | .greeting => "ADD 1.23/SUBTRACT 1.23/POWER 1.23/SHOW\r\n"
  | .added o v => "X += " ++ fmt o ++ " = " ++ fmt v ++ "\r\n"
  | .subtracted o v => "X -= " ++ fmt o ++ " = " ++ fmt v ++ "\r\n"
  | .powered o v => "X ^= " ++ fmt o ++ " = " ++ fmt v ++ "\r\n"
  | .shown v => "X = " ++ fmt v ++ "\r\n"
  | .unknown t => "Unknown command: " ++ t ++ "\r\n"

/-- Outcome of the loop body of `process_request` for one input line:
either the session continues with a possibly-updated value and at most one
response line written, or a `?` on a failed operand parse ends the session. -/
inductive LineStep (K : Type) where
  | cont (st : K) (resp : Option (Response K)) : LineStep K
  | fatal : LineStep K
  deriving DecidableEq

/-- The `match words[0]` dispatch of `process_request`, applied to the token
list of one line.  Mirrors the source arm by arm: empty line skipped; each of
`ADD`/`SUBTRACT`/`POWER` requires exactly one argument (otherwise only a local
`eprintln!` diagnostic, no response, no state change); `SHOW` requires zero
arguments; an operand that fails to parse is fatal via `?`; any other first
token gets an `Unknown command` response. -/
def processWords (powf : K → K → K) (st : K) : List String → LineStep K
  | [] => .cont st none
  | w0 :: args =>
    if w0 = "ADD" then
      match args with
      | [a] =>
        match parseFloat (K := K) a with
        | none => .fatal
        | some o => .cont (add o st) (some (.added o (add o st)))
      | _ => .cont st none
    else if w0 = "SUBTRACT" then
      match args with
      | [a] =>
        match parseFloat (K := K) a with
        | none => .fatal
        | some o => .cont (subtract o st) (some (.subtracted o (subtract o st)))
      | _ => .cont st none
    else if w0 = "POWER" then
      match args with
      | [a] =>
        match parseFloat (K := K) a with
        | none => .fatal
        | some o => .cont (power powf o st) (some (.powered o (power powf o st)))
      | _ => .cont st none
    else if w0 = "SHOW" then
      match args with
      | [] => .cont st (some (.shown (showX st)))
      | _ => .cont st none
    else .cont st (some (.unknown w0))

/-- One iteration of the `while let Some(line)` loop: split the line into
whitespace-separated words and dispatch. -/
def processLine (powf : K → K → K) (st : K) (line : String) : LineStep K :=
  processWords powf st (splitWhitespace line)

/-- Observable outcome of a session: the value of the shared cell when the
session ends, the response lines written after the greeting, and whether the
session was ended by an operand parse error (`Err` from `process_request`)
rather than by end-of-stream. -/
structure SessionTrace (K : Type) where
  finalState : K
  responses : List (Response K)
  fatalParse : Bool
  deriving DecidableEq

/-- The session loop of `process_request` over the finite list of input lines
the reader yields, starting from shared value `st`.  A fatal parse error stops
the loop: the failing line produces no response and no state change, and the
remaining lines are never read. -/
def runLines (powf : K → K → K) (st : K) : List String → SessionTrace K
  | [] => ⟨st, [], false⟩
  | l :: ls =>
    match processLine powf st l with
    | .fatal => ⟨st, [], true⟩
    | .cont st2 r =>
      let t := runLines powf st2 ls
      ⟨t.finalState, r.toList ++ t.responses, t.fatalParse⟩

/-- `process_request` in full: the greeting line is written before any input
is read, then the line loop runs. -/
def processRequest (powf : K → K → K) (st : K) (lines : List String) :
    SessionTrace K :=
  let t := runLines powf st lines
  ⟨t.finalState, .greeting :: t.responses, t.fatalParse⟩

/-! ### The Connection Acceptor: `main` -/

/-- One result of `listener.accept().await`: a new connection (identified by a
number) or an I/O error. -/
inductive AcceptEvent where
  | conn (id : ℕ) : AcceptEvent
  | err : AcceptEvent
  deriving DecidableEq

/-- The connection id of a successful accept, `none` for an error. -/
def AcceptEvent.connId : AcceptEvent → Option ℕ
  | .conn i => some i
  | .err => none

/-- The `loop { listener.accept().await?; tokio::spawn(...) }` of `main` over
a finite list of accept results: returns the ids of the connections for which
a session was spawned, and whether the loop was terminated by an accept error
(the `?` propagating the error out of `main`).  `false` means the loop was
still running after the listed events. -/
def acceptorRun : List AcceptEvent → List ℕ × Bool
  | [] => ([], false)
  | .conn i :: es =>
    let (cs, e) := acceptorRun es
    (i :: cs, e)
  | .err :: _ => ([], true)

/-! ## Abstract operations on the Shared State Cell

`Op` is a mutating command (`ADD`/`SUBTRACT`/`POWER`) as submitted by a
session; `CellOp` additionally includes the read (`SHOW`).  These describe the
critical sections executed against the shared cell. -/

/-- A mutating command with its already-parsed operand. -/
inductive Op (K : Type) where
  | add (operand : K) : Op K
  | subtract (operand : K) : Op K
  | power (operand : K) : Op K
  deriving DecidableEq

/-- The command name token that invokes this operation. -/
def Op.cmdName : Op K → String
  | .add _ => "ADD"
  | .subtract _ => "SUBTRACT"
  | .power _ => "POWER"

/-- The operand carried by the operation. -/
def Op.operand : Op K → K
  | .add o => o
  | .subtract o => o
  | .power o => o

/-- The effect of one mutating operation on the shared value, through the
corresponding Shared State Cell function. -/
def applyOp (powf : K → K → K) (x : K) : Op K → K
  | .add o => add o x
  | .subtract o => subtract o x
  | .power o => power powf o x

/-- The response line the handler writes when executing the operation at
current value `x`: it reports the operand and the new value returned by the
cell operation. -/
def opResponse (powf : K → K → K) (x : K) : Op K → Response K
  | .add o => .added o (add o x)
  | .subtract o => .subtracted o (subtract o x)
  | .power o => .powered o (power powf o x)

/-- The response lines produced by executing a list of mutating operations in
order from value `x`: each reports the value produced at its own step. -/
def expectedResponses (powf : K → K → K) (x : K) : List (Op K) → List (Response K)
  | [] => []
  | op :: rest =>
    opResponse powf x op :: expectedResponses powf (applyOp powf x op) rest

/-- A critical section against the Shared State Cell: one of the three
mutations, or the `SHOW` read. -/
inductive CellOp (K : Type) where
  | add (operand : K) : CellOp K
  | subtract (operand : K) : CellOp K
  | power (operand : K) : CellOp K
  | showOp : CellOp K
  deriving DecidableEq

/-- The effect of one atomic critical section on the shared value; the mutex
in the source makes each cell operation a single indivisible step, and `SHOW`
reads without writing. -/
def applyCellOp (powf : K → K → K) (x : K) : CellOp K → K
  | .add o => add o x
  | .subtract o => subtract o x
  | .power o => power powf o x
  | .showOp => showX x

/-- Execution of a total order of critical sections: the shared value after
all operations of the schedule have run, one at a time. -/
def execSchedule (powf : K → K → K) (init : K) (sched : List (CellOp K)) : K :=
  sched.foldl (applyCellOp powf) init

/-- `Interleaving sessions sched` holds when `sched` is one possible global
order in which the mutex grants the critical sections requested by the
sessions: at each step some session's next pending operation runs, so the
schedule preserves each session's own submission order (FIFO within a
session) but interleaves sessions arbitrarily. -/
inductive Interleaving {α : Type} : List (List α) → List α → Prop where
  | nil (ss : List (List α)) (h : ∀ s ∈ ss, s = []) : Interleaving ss []
  | step (ss : List (List α)) (i : ℕ) (hi : i < ss.length) (x : α)
      (xs : List α) (hget : ss.get ⟨i, hi⟩ = x :: xs) (sched : List α)
      (h : Interleaving (ss.set i xs) sched) : Interleaving ss (x :: sched)

/-! ## Helper lemmas -/

/-- Dispatch of a well-formed mutating command line: when the line tokenizes
to the command name and one operand token that parses to the operation's
operand, the loop body applies the cell operation and produces the response
reporting the new value. -/
theorem processLine_valid (powf : K → K → K) (st : K) (line : String)
    (op : Op K) (t : String)
    (hsplit : splitWhitespace line = [op.cmdName, t])
    (hparse : parseFloat (K := K) t = some op.operand) :
    processLine powf st line =
      .cont (applyOp powf st op) (some (opResponse powf st op)) := by
  unfold processLine
  rw [hsplit]
  cases op <;>
    simp [processWords, Op.cmdName, Op.operand, applyOp, opResponse] at hparse ⊢ <;>
    rw [hparse]

/-- The session loop applied to a list of well-formed mutating command lines:
the final value is the left-to-right fold of the operations from the starting
value, the responses report each step's new value, and the session is not
terminated by a parse error. -/
theorem runLines_fold_aux (powf : K → K → K) :
    ∀ (lines : List String) (cmds : List (Op K × String)) (st : K),
      lines.length = cmds.length →
      (∀ p ∈ lines.zip cmds,
        splitWhitespace p.1 = [p.2.1.cmdName, p.2.2] ∧
        parseFloat (K := K) p.2.2 = some p.2.1.operand) →
      runLines powf st lines =
        ⟨(cmds.map Prod.fst).foldl (applyOp powf) st,
         expectedResponses powf st (cmds.map Prod.fst), false⟩
  | [], [], st, _, _ => by simp [runLines, expectedResponses]
  | l :: ls, c :: cs, st, hlen, h => by
    have hhead := h (l, c) (by simp)
    have hstep := processLine_valid powf st l c.1 c.2 hhead.1 hhead.2
    have htail := runLines_fold_aux powf ls cs (applyOp powf st c.1)
      (by simpa using hlen)
      (fun p hp => h p (by simp [hp]))
    simp [runLines, hstep, htail, expectedResponses]

/-- No arm of the command dispatch ever produces the greeting response; the
greeting is written only once, before the loop. -/
theorem processWords_ne_greeting (powf : K → K → K) (st st2 : K)
    (ws : List String) (r : Response K)
    (h : processWords powf st ws = .cont st2 (some r)) : r ≠ .greeting := by
  rcases ws with _ | ⟨w0, args⟩
  · simp [processWords] at h
  · simp only [processWords] at h
    split_ifs at h
    · rcases args with _ | ⟨a, _ | ⟨b, args'⟩⟩
      · simp at h
      · rcases hp : parseFloat (K := K) a with _ | o
        · simp [hp] at h
        · simp [hp] at h
          obtain ⟨h1, h2⟩ := h
          subst h2
          simp
      · simp at h
    · rcases args with _ | ⟨a, _ | ⟨b, args'⟩⟩
      · simp at h
      · rcases hp : parseFloat (K := K) a with _ | o
        · simp [hp] at h
        · simp [hp] at h
          obtain ⟨h1, h2⟩ := h
          subst h2
          simp
      · simp at h
    · rcases args with _ | ⟨a, _ | ⟨b, args'⟩⟩
      · simp at h
      · rcases hp : parseFloat (K := K) a with _ | o
        · simp [hp] at h
        · simp [hp] at h
          obtain ⟨h1, h2⟩ := h
          subst h2
          simp
      · simp at h
    · rcases args with _ | ⟨a, args'⟩
      · simp at h
        obtain ⟨h1, h2⟩ := h
        subst h2
        simp
      · simp at h
    · simp at h
      obtain ⟨h1, h2⟩ := h
      subst h2
      simp

/-- Taking the head `x` of the `i`-th list out of a list of lists permutes
the flattened list: the joined elements are `x` plus the join after the
removal. -/
theorem join_set_perm {α : Type} :
    ∀ (ss : List (List α)) (i : ℕ) (hi : i < ss.length) (x : α) (xs : List α),
      ss.get ⟨i, hi⟩ = x :: xs → ss.flatten.Perm (x :: (ss.set i xs).flatten)
  | s :: rest, 0, _, x, xs, h => by
    simp only [List.get] at h
    subst h
    simp
  | s :: rest, i + 1, hi, x, xs, h => by
    simp only [List.get] at h
    have ih := join_set_perm rest i (by simpa using hi) x xs h
    have h1 : (s ++ rest.flatten).Perm (s ++ x :: (rest.set i xs).flatten) :=
      ih.append_left s
    have h2 : (s ++ x :: (rest.set i xs).flatten).Perm
        (x :: (s ++ (rest.set i xs).flatten)) := List.perm_middle
    simpa using h1.trans h2

/-- A schedule granted by the mutex contains exactly the operations submitted
by the sessions: it is a permutation of their concatenation (nothing lost,
nothing duplicated). -/
theorem interleaving_perm_join {α : Type} {ss : List (List α)} {sched : List α}
    (h : Interleaving ss sched) : sched.Perm ss.flatten := by
  induction h with
  | nil ss h =>
    rw [List.flatten_eq_nil_iff.mpr h]
  | step ss i hi x xs hget sched h ih =>
    exact (ih.cons x).trans (join_set_perm ss i hi x xs hget).symm

/-! ## Claim theorems -/

/-- C1 (counterexample): the claim that an error returned by accepting an
individual incoming connection does not terminate the acceptor loop is false
for this code.  With accept results `[err, conn 0]`, the `?` in
`listener.accept().await?` propagates the error out of `main`: the loop
terminates and the subsequent connection 0 is never accepted. -/
theorem accept_error_stops_acceptor_cex :
    (acceptorRun [AcceptEvent.err, AcceptEvent.conn 0]).2 = true ∧
      0 ∉ (acceptorRun [AcceptEvent.err, AcceptEvent.conn 0]).1 := by
  decide

/-- C1 (amended): an error returned by `listener.accept()` terminates the
acceptor loop, just as a bind failure is fatal at startup: the loop spawns a
session for every connection accepted before the first accept error and for
none after it, while in the absence of accept errors it keeps accepting
indefinitely. -/
theorem accept_error_fatal (good post : List AcceptEvent)
    (h : AcceptEvent.err ∉ good) :
    acceptorRun (good ++ AcceptEvent.err :: post) =
      (good.filterMap AcceptEvent.connId, true) ∧
    acceptorRun good = (good.filterMap AcceptEvent.connId, false) := by
  induction good with
  | nil => simp [acceptorRun]
  | cons e es ih =>
    rcases e with i | _
    · have ih' := ih (fun hm => h (List.mem_cons_of_mem _ hm))
      simp [acceptorRun, AcceptEvent.connId, ih'.1, ih'.2]
    · exact absurd (List.mem_cons_self _ _) h

/-- Witness for C1 (amended) at a concrete event list: one connection before
the error is spawned, the one after it is not. -/
theorem accept_error_fatal_witness :
    acceptorRun ([AcceptEvent.conn 1] ++ AcceptEvent.err :: [AcceptEvent.conn 2]) =
      ([AcceptEvent.conn 1].filterMap AcceptEvent.connId, true) ∧
    acceptorRun [AcceptEvent.conn 1] =
      ([AcceptEvent.conn 1].filterMap AcceptEvent.connId, false) :=
  accept_error_fatal [AcceptEvent.conn 1] [AcceptEvent.conn 2] (by decide)

/-- C6: in the real-valued model of the cell (with `Real.rpow` as the model
of `f64::powf`), applying `Add` with operand 0 leaves the shared value
unchanged, applying `Subtract` with operand 0 leaves it unchanged, and
applying `Power` with exponent 1 leaves it unchanged. -/
theorem zero_operand_identity (v : ℝ) :
    add (0 : ℝ) v = v ∧ subtract (0 : ℝ) v = v ∧ power Real.rpow 1 v = v := by
  refine ⟨?_, ?_, ?_⟩
  · simp [add]
  · simp [subtract]
  · simp [power, Real.rpow_one]

/-- C5: for every interleaving of the critical sections submitted by N
concurrent sessions (each operation runs indivisibly under the mutex, and the
schedule preserves each session's own order), the final shared value is the
fold of all submitted operations in some total order containing every
operation exactly once. -/
theorem concurrent_ops_serializable (powf : K → K → K) (init : K)
    (sessions : List (List (CellOp K))) (sched : List (CellOp K))
    (h : Interleaving sessions sched) :
    ∃ order : List (CellOp K),
      order.Perm sessions.flatten ∧
      execSchedule powf init sched = order.foldl (applyCellOp powf) init :=
  ⟨sched, interleaving_perm_join h, rfl⟩

/-- Witness for C5: two one-command sessions and one concrete interleaving of
them. -/
theorem concurrent_ops_serializable_witness :
    ∃ order : List (CellOp ℚ),
      order.Perm ([[CellOp.add 1], [CellOp.showOp]] :
        List (List (CellOp ℚ))).flatten ∧
      execSchedule (fun x _ => x) 0 [CellOp.add 1, CellOp.showOp] =
        order.foldl (applyCellOp (fun x _ => x)) 0 :=
  concurrent_ops_serializable (fun x _ => x) 0 [[CellOp.add 1], [CellOp.showOp]]
    [CellOp.add 1, CellOp.showOp]
    (Interleaving.step [[CellOp.add 1], [CellOp.showOp]] 0 (by decide)
      (CellOp.add 1) [] rfl [CellOp.showOp]
      (Interleaving.step [[], [CellOp.showOp]] 1 (by decide)
        CellOp.showOp [] rfl []
        (Interleaving.nil [[], []] (by decide))))

/-- C9: on every new connection the handler sends exactly one greeting line
before processing any client input: the greeting is the first response of the
session, no later response is ever the greeting, and its text is exactly
`ADD 1.23/SUBTRACT 1.23/POWER 1.23/SHOW` followed by CRLF. -/
theorem greeting_exactly_once (powf : K → K → K) (st : K)
    (lines : List String) (fmt : K → String) :
    (processRequest powf st lines).responses =
      .greeting :: (runLines powf st lines).responses ∧
    Response.greeting ∉ (runLines powf st lines).responses ∧
    Response.render fmt (.greeting : Response K) =
      "ADD 1.23/SUBTRACT 1.23/POWER 1.23/SHOW\r\n" := by
  refine ⟨rfl, ?_, rfl⟩
  induction lines generalizing st with
  | nil => simp [runLines]
  | cons l ls ih =>
    rcases hpl : processLine powf st l with ⟨st2, r⟩ | _
    · rcases r with _ | resp
      · simpa [runLines, hpl] using ih st2
      · have hne := processWords_ne_greeting powf st st2
          (splitWhitespace l) resp hpl
        simp only [runLines, hpl]
        simp only [Option.toList_some, List.singleton_append,
          List.mem_cons, not_or]
        exact ⟨fun he => hne he.symm, ih st2⟩
    · simp [runLines, hpl]

/-- A token accepted by the float grammar parses to its own default-read
value; lets concrete instances name the parsed operand without evaluating
field arithmetic. -/
theorem parseFloat_eq_some_getD (s : String)
    (h : (parseFloat (K := K) s).isSome = true) :
    parseFloat (K := K) s = some ((parseFloat (K := K) s).getD 0) := by
  rcases hp : parseFloat (K := K) s with _ | o
  · rw [hp] at h
    simp at h
  · simp

/-- C2: for every finite sequence of valid mutating commands (`ADD o1`,
`SUBTRACT o2`, `POWER o3`, ...) processed by a single session over the shared
value starting at its initial value 0, the final value is the left-to-right
fold of the corresponding cell operations over 0, each response line reports
the new value produced at its own step, and the session is not terminated by
an error. -/
theorem single_session_fold (powf : K → K → K) (lines : List String)
    (cmds : List (Op K × String))
    (hlen : lines.length = cmds.length)
    (h : ∀ p ∈ lines.zip cmds,
      splitWhitespace p.1 = [p.2.1.cmdName, p.2.2] ∧
      parseFloat (K := K) p.2.2 = some p.2.1.operand) :
    runLines powf 0 lines =
      ⟨(cmds.map Prod.fst).foldl (applyOp powf) 0,
       expectedResponses powf 0 (cmds.map Prod.fst), false⟩ :=
  runLines_fold_aux powf lines cmds 0 hlen h

/-- Witness for C2 at the concrete session `ADD 5`, `SUBTRACT 2`. -/
theorem single_session_fold_witness :
    runLines (K := ℚ) (fun x _ => x) 0 ["ADD 5", "SUBTRACT 2"] =
      ⟨(([(Op.add ((parseFloat (K := ℚ) "5").getD 0), "5"),
          (Op.subtract ((parseFloat (K := ℚ) "2").getD 0), "2")]).map
            Prod.fst).foldl (applyOp fun x _ => x) 0,
       expectedResponses (fun x _ => x) 0
         (([(Op.add ((parseFloat (K := ℚ) "5").getD 0), "5"),
            (Op.subtract ((parseFloat (K := ℚ) "2").getD 0), "2")]).map
              Prod.fst), false⟩ :=
  single_session_fold (fun x _ => x) ["ADD 5", "SUBTRACT 2"]
    [(Op.add ((parseFloat (K := ℚ) "5").getD 0), "5"),
     (Op.subtract ((parseFloat (K := ℚ) "2").getD 0), "2")]
    rfl
    (by
      intro p hp
      simp only [List.zip_cons_cons, List.zip_nil_right, List.mem_cons,
        List.not_mem_nil, or_false] at hp
      rcases hp with hp | hp <;> subst hp <;>
        exact ⟨by decide, parseFloat_eq_some_getD _ (by decide)⟩)

/-- C3: an input line whose first token is `ADD`, `SUBTRACT` or `POWER` with
exactly one argument token that fails to parse as a float terminates the
session: the shared value is untouched and no response line is written for
this line or any later line of the session. -/
theorem operand_parse_error_terminates_session (powf : K → K → K) (st : K)
    (line w t : String) (rest : List String)
    (hsplit : splitWhitespace line = [w, t])
    (hw : w = "ADD" ∨ w = "SUBTRACT" ∨ w = "POWER")
    (hparse : parseFloat (K := K) t = none) :
    runLines powf st (line :: rest) = ⟨st, [], true⟩ := by
  have hstep : processLine powf st line = .fatal := by
    unfold processLine
    rw [hsplit]
    rcases hw with h | h | h <;> subst h <;> simp [processWords, hparse]
  simp [runLines, hstep]

/-- Witness for C3 at the scenario line `ADD abc` followed by a line that is
never processed. -/
theorem operand_parse_error_terminates_session_witness :
    runLines (K := ℚ) (fun x _ => x) 0 ["ADD abc", "SHOW"] = ⟨0, [], true⟩ :=
  operand_parse_error_terminates_session (fun x _ => x) 0 "ADD abc" "ADD"
    "abc" ["SHOW"] (by decide) (Or.inl rfl) (by decide)

/-- C4: an input line whose first token is a recognized command name but whose
argument count is wrong produces no response, leaves the shared value
unchanged, and the session continues with the subsequent lines exactly as if
the line had not been sent. -/
theorem arg_count_mismatch_ignored (powf : K → K → K) (st : K)
    (line w0 : String) (args : List String) (rest : List String)
    (hsplit : splitWhitespace line = w0 :: args)
    (hbad : ((w0 = "ADD" ∨ w0 = "SUBTRACT" ∨ w0 = "POWER") ∧
        args.length ≠ 1) ∨ (w0 = "SHOW" ∧ args ≠ [])) :
    runLines powf st (line :: rest) = runLines powf st rest := by
  have hstep : processLine powf st line = .cont st none := by
    unfold processLine
    rw [hsplit]
    rcases hbad with ⟨hw, hlen⟩ | ⟨hw, hne⟩
    · rcases hw with h | h | h <;> subst h <;>
        rcases args with _ | ⟨a, _ | ⟨b, args'⟩⟩ <;> simp_all [processWords]
    · subst hw
      rcases args with _ | ⟨a, args'⟩
      · exact absurd rfl hne
      · simp [processWords]
  rcases hr : runLines powf st rest with ⟨a, b, c⟩
  simp [runLines, hstep, hr]

/-- Witness for C4 at the scenario `ADD` with the missing operand, followed by
`SHOW`, which still answers with the unchanged value 0. -/
theorem arg_count_mismatch_ignored_witness :
    runLines (K := ℚ) (fun x _ => x) 0 ["ADD", "SHOW"] =
      runLines (K := ℚ) (fun x _ => x) 0 ["SHOW"] :=
  arg_count_mismatch_ignored (fun x _ => x) 0 "ADD" "ADD" [] ["SHOW"]
    (by decide) (Or.inl ⟨Or.inl rfl, by decide⟩)

/-- C7: a non-empty input line whose first token is none of `ADD`,
`SUBTRACT`, `POWER`, `SHOW` (the match is case-sensitive) gets the single
response line `Unknown command: <first token>` followed by CRLF, leaves the
shared value unchanged, and the session continues with the remaining lines. -/
theorem unknown_command_response (powf : K → K → K) (fmt : K → String)
    (st : K) (line w0 : String) (args : List String) (ls : List String)
    (hsplit : splitWhitespace line = w0 :: args)
    (h1 : w0 ≠ "ADD") (h2 : w0 ≠ "SUBTRACT") (h3 : w0 ≠ "POWER")
    (h4 : w0 ≠ "SHOW") :
    runLines powf st (line :: ls) =
      ⟨(runLines powf st ls).finalState,
       .unknown w0 :: (runLines powf st ls).responses,
       (runLines powf st ls).fatalParse⟩ ∧
    Response.render fmt (Response.unknown (K := K) w0) =
      "Unknown command: " ++ w0 ++ "\r\n" := by
  have hstep : processLine powf st line = .cont st (some (.unknown w0)) := by
    unfold processLine
    rw [hsplit]
    simp [processWords, h1, h2, h3, h4]
  exact ⟨by simp [runLines, hstep], rfl⟩

/-- Witness for C7 at the line `add 1`: the lowercase spelling is not a
recognized command, demonstrating case-sensitivity. -/
theorem unknown_command_response_witness :
    runLines (K := ℚ) (fun x _ => x) 0 ["add 1"] =
      ⟨(runLines (K := ℚ) (fun x _ => x) 0 []).finalState,
       .unknown "add" :: (runLines (K := ℚ) (fun x _ => x) 0 []).responses,
       (runLines (K := ℚ) (fun x _ => x) 0 []).fatalParse⟩ ∧
    Response.render (fun _ => "") (Response.unknown (K := ℚ) "add") =
      "Unknown command: " ++ "add" ++ "\r\n" :=
  unknown_command_response (fun x _ => x) (fun _ => "") 0 "add 1" "add" ["1"]
    [] (by decide) (by decide) (by decide) (by decide) (by decide)

/-- C8: the `SHOW` command returns the current shared value and never mutates
it: executing it any number of times produces one `X = <value>` response per
execution reporting the same unchanged value, and leaves every subsequent
computation exactly as it would have been without the `SHOW`s. -/
theorem show_preserves_value (powf : K → K → K) (st : K) (line : String)
    (hsplit : splitWhitespace line = ["SHOW"]) (n : ℕ) (ls : List String) :
    showX st = st ∧
    runLines powf st (List.replicate n line ++ ls) =
      ⟨(runLines powf st ls).finalState,
       List.replicate n (Response.shown (showX st)) ++
         (runLines powf st ls).responses,
       (runLines powf st ls).fatalParse⟩ := by
  refine ⟨rfl, ?_⟩
  have hstep : processLine powf st line = .cont st (some (.shown (showX st))) := by
    unfold processLine
    rw [hsplit]
    simp [processWords]
  induction n with
  | zero => simp
  | succ m ih => simp [List.replicate_succ, runLines, hstep, ih]

/-- Witness for C8: two `SHOW`s before an `ADD 1` leave the session exactly
as it is with the `ADD 1` alone, apart from the two readouts of 0. -/
theorem show_preserves_value_witness :
    showX (0 : ℚ) = 0 ∧
    runLines (K := ℚ) (fun x _ => x) 0 (List.replicate 2 "SHOW" ++ ["ADD 1"]) =
      ⟨(runLines (K := ℚ) (fun x _ => x) 0 ["ADD 1"]).finalState,
       List.replicate 2 (Response.shown (showX (0 : ℚ))) ++
         (runLines (K := ℚ) (fun x _ => x) 0 ["ADD 1"]).responses,
       (runLines (K := ℚ) (fun x _ => x) 0 ["ADD 1"]).fatalParse⟩ :=
  show_preserves_value (fun x _ => x) 0 "SHOW" (by decide) 2 ["ADD 1"]

/-- C10: when a session is terminated by an operand that fails to parse, the
shared value is exactly what the already-processed lines produced: the
operand is parsed before the Shared State Cell is touched, so the failing
line contributes no mutation and no response at all. -/
theorem parse_error_preserves_value (powf : K → K → K) :
    ∀ (done : List String) (st : K) (bad : String) (rest : List String),
      (runLines powf st done).fatalParse = false →
      processLine powf ((runLines powf st done).finalState) bad = .fatal →
      runLines powf st (done ++ bad :: rest) =
        ⟨(runLines powf st done).finalState,
         (runLines powf st done).responses, true⟩
  | [], st, bad, rest, _, hbad => by
    simp only [runLines] at hbad ⊢
    simp [runLines, hbad]
  | l :: ds, st, bad, rest, hok, hbad => by
    rcases hpl : processLine powf st l with ⟨st2, r⟩ | _
    · simp only [runLines, hpl] at hok hbad ⊢
      have hrec := parse_error_preserves_value powf ds st2 bad rest hok hbad
      simp [hrec]
    · simp only [runLines, hpl] at hok
      simp at hok
  termination_by done => done.length

/-- Witness for C10: after `ADD 5` the failing line `ADD abc` ends the
session with the value still 5 and only the first response written. -/
theorem parse_error_preserves_value_witness :
    runLines (K := ℚ) (fun x _ => x) 0 (["ADD 5"] ++ "ADD abc" :: ["ADD 3"]) =
      ⟨(runLines (K := ℚ) (fun x _ => x) 0 ["ADD 5"]).finalState,
       (runLines (K := ℚ) (fun x _ => x) 0 ["ADD 5"]).responses, true⟩ :=
  parse_error_preserves_value (fun x _ => x) ["ADD 5"] 0 "ADD abc" ["ADD 3"]
    (by decide) (by decide)
